import Mathlib

/-!
Verification of the BLE battery-telemetry client in `src/gui.py`
(classes `BluetoothWorker` and `BatteryDataViewer`).

Modelling conventions, chosen to stay executable and faithful to the code:

* Python strings are modelled as `List Char`; Python `bytes` as `List Nat`
  (one entry per byte, each < 256).
* Wall-clock times (`time.time()`) are modelled as `ℚ`.  Numeric measurement
  values produced by Python's `float(...)` are modelled as exact rationals:
  every value occurring in the specification's claims (1.0, 2.5, 3.0, 2.0,
  ...) is a short decimal literal, and for these the decimal reading
  modelled here agrees with CPython's reading, so the abstraction is exact
  on every input any claim touches.  The model of `float(...)` covers the
  finite decimal-literal grammar (optional sign, digits, optional fraction,
  optional exponent); the CPython extras (`inf`/`nan` words, underscores
  between digits, non-ASCII digits) are outside every claim and are not
  modelled.  The reading is split into an integer stage (`pyFloatParts`,
  producing the exact numerator and denominator of the literal) and a final
  conversion to `ℚ` (`ratOfParts`); their composition `pyFloat` is the
  model of `float(...)`.
* Qt signal emissions are modelled as values of an explicit event type
  (`MonitorEvent`), returned in emission order.
-/

/-- Characters treated as whitespace by Python's `str.strip()` and by the
`\s` class of the `re` module for ASCII text (the wire format is ASCII). -/
def isPySpace (c : Char) : Bool :=
  c = ' ' || c = '\t' || c = '\n' || c = '\r' || c = '\x0B' || c = '\x0C'

/-- ASCII decimal digit test, as used by CPython's float literal reader. -/
def isDigitChar (c : Char) : Bool :=
  decide (48 ≤ c.toNat) && decide (c.toNat ≤ 57)

/-- Python `str.strip()`: drop leading and trailing whitespace. -/
def pyStrip (l : List Char) : List Char :=
  ((l.dropWhile isPySpace).reverse.dropWhile isPySpace).reverse

/-- Python `str.strip(',')`: drop leading and trailing commas
(`gui.py` line 331). -/
def stripCommas (l : List Char) : List Char :=
  ((l.dropWhile (fun c => decide (c = ','))).reverse.dropWhile
    (fun c => decide (c = ','))).reverse

/-- Worker for `subRuns`: `inRun` records whether the previous character was
part of a run matched by `p` (already replaced), so that each maximal
nonempty run of `p`-characters contributes exactly one `repl`. -/
def subRunsAux (p : Char → Bool) (repl : Char) : Bool → List Char → List Char
  | _, [] => []
  | inRun, c :: rest =>
    if p c then
      if inRun then subRunsAux p repl true rest
      else repl :: subRunsAux p repl true rest
    else c :: subRunsAux p repl false rest

/-- Python `re.sub(r'X+', repl, s)` for a single-character class `X`:
replace every maximal nonempty run of characters satisfying `p` by the
single character `repl` (`gui.py` lines 319, 322, 328). -/
def subRuns (p : Char → Bool) (repl : Char) (l : List Char) : List Char :=
  subRunsAux p repl false l

/-- Worker for `subWsCommaWs`, with fuel: each recursive call consumes at
least one character of the list, so `l.length` fuel always suffices and the
fuel-exhausted branch is never reached for the argument `subWsCommaWs`
passes. -/
def subWsCommaWsAux : Nat → List Char → List Char
  | 0, l => l
  | fuel + 1, l =>
    match l.dropWhile isPySpace with
    | ',' :: tail => ',' :: subWsCommaWsAux fuel (tail.dropWhile isPySpace)
    | _ =>
      match l with
      | [] => []
      | c :: rest => c :: subWsCommaWsAux fuel rest

/-- Python `re.sub(r'\s*,\s*', ',', s)` (`gui.py` line 325): scanning left to
right, a (possibly empty) whitespace run followed by a comma followed by a
greedy whitespace run is replaced by a single comma; at a position where no
such match starts, the character is copied and scanning advances by one. -/
def subWsCommaWs (l : List Char) : List Char :=
  subWsCommaWsAux l.length l

/-- Python `str.split(',')` (`gui.py` line 342): split at every comma,
keeping empty parts; the result is always nonempty. -/
def splitOnComma : List Char → List (List Char)
  | [] => [[]]
  | c :: rest =>
    if c = ',' then [] :: splitOnComma rest
    else
      match splitOnComma rest with
      | [] => [[c]]
      | p :: ps => (c :: p) :: ps

/-- Decimal value of a list of digit characters, most significant first. -/
def digitsToNat (l : List Char) : Nat :=
  l.foldl (fun a c => 10 * a + (c.toNat - 48)) 0

/-- Exponent digits of a float literal: nonempty and all decimal digits. -/
def parseExpDigits (l : List Char) : Option Nat :=
  if l ≠ [] ∧ l.all isDigitChar then some (digitsToNat l) else none

/-- Signed exponent part of a float literal (the part after `e`/`E`). -/
def parseExp (l : List Char) : Option Int :=
  match l with
  | '+' :: r => (parseExpDigits r).map (fun n => (n : Int))
  | '-' :: r => (parseExpDigits r).map (fun n => -(n : Int))
  | r => (parseExpDigits r).map (fun n => (n : Int))

/-- Apply a decimal exponent to an exact numerator/denominator pair. -/
def applyExp (num : Int) (den : Nat) (k : Int) : Int × Nat :=
  if 0 ≤ k then (num * 10 ^ k.toNat, den) else (num, den * 10 ^ (-k).toNat)

/-- Unsigned part of the decimal reading of Python `float(token)`:
`digits [. digits] [(e|E) [sign] digits]` or `. digits [(e|E) [sign] digits]`,
with nothing left over; any other shape fails.  The result is the exact
numerator/denominator pair of the literal. -/
def pyFloatPartsUnsigned (l : List Char) : Option (Int × Nat) :=
  let intPart := l.takeWhile isDigitChar
  let rest := l.dropWhile isDigitChar
  match rest with
  | [] => if intPart = [] then none else some ((digitsToNat intPart : Int), 1)
  | c :: r2 =>
    if c = '.' then
      let fracPart := r2.takeWhile isDigitChar
      let rest2 := r2.dropWhile isDigitChar
      if intPart = [] ∧ fracPart = [] then none
      else
        let num : Int := ((digitsToNat intPart * 10 ^ fracPart.length + digitsToNat fracPart : Nat) : Int)
        let den : Nat := 10 ^ fracPart.length
        match rest2 with
        | [] => some (num, den)
        | c2 :: r3 =>
          if c2 = 'e' ∨ c2 = 'E' then (parseExp r3).map (applyExp num den)
          else none
    else if c = 'e' ∨ c = 'E' then
      if intPart = [] then none
      else (parseExp r2).map (applyExp (digitsToNat intPart : Int) 1)
    else none

/-- Signed decimal reading of Python `float(token)` (`gui.py` line 349) as
an exact numerator/denominator pair. -/
def pyFloatParts (l : List Char) : Option (Int × Nat) :=
  match l with
  | [] => pyFloatPartsUnsigned []
  | c :: r =>
    if c = '+' then pyFloatPartsUnsigned r
    else if c = '-' then (pyFloatPartsUnsigned r).map (fun p => (-p.1, p.2))
    else pyFloatPartsUnsigned (c :: r)

/-- Value of an exact numerator/denominator pair. -/
def ratOfParts (p : Int × Nat) : ℚ :=
  (p.1 : ℚ) / (p.2 : ℚ)

/-- Python `float(token)` (`gui.py` line 349) on an already-stripped token,
with the value taken as an exact rational (see the file comment). -/
def pyFloat (l : List Char) : Option ℚ :=
  (pyFloatParts l).map ratOfParts

/-- `BatteryDataViewer.clean_data_string` (`gui.py` lines 309-333): strip
outer whitespace, drop one leading `[` and one trailing `]` if present,
collapse whitespace runs to one space, comma runs to one comma, fuse
whitespace around commas into the comma, turn remaining whitespace runs
into commas, and strip leading/trailing commas. -/
def clean_data_string (data_string : List Char) : List Char :=
  let s1 := pyStrip data_string
  let s2 := if s1.head? = some '[' then s1.tail else s1
  let s3 := if s2.getLast? = some ']' then s2.dropLast else s2
  let s4 := subRuns isPySpace ' ' s3
  let s5 := subRuns (fun c => decide (c = ',')) ',' s4
  let s6 := subWsCommaWs s5
  let s7 := subRuns isPySpace ',' s6
  stripCommas s7

/-- Body of the `for part in parts` loop of
`BatteryDataViewer.parse_numeric_values` (`gui.py` lines 345-351), at the
exact-pair level: strip the part, skip it when empty, otherwise keep it
exactly when the float reading succeeds (a failing token is only logged,
never an error). -/
def parse_token_parts (part : List Char) : Option (Int × Nat) :=
  let p := pyStrip part
  if p = [] then none else pyFloatParts p

/-- The loop body of `parse_numeric_values`, at the value level. -/
def parse_token (part : List Char) : Option ℚ :=
  (parse_token_parts part).map ratOfParts

/-- `BatteryDataViewer.parse_numeric_values` (`gui.py` lines 335-353), at
the exact-pair level: empty input gives no values; otherwise split on
commas and collect, in order, the tokens that read as float literals. -/
def parse_numeric_parts (cleaned_data : List Char) : List (Int × Nat) :=
  if cleaned_data = [] then []
  else (splitOnComma cleaned_data).filterMap parse_token_parts

/-- `BatteryDataViewer.parse_numeric_values` (`gui.py` lines 335-353): the
ordered list of values of the tokens that parse as floats. -/
def parse_numeric_values (cleaned_data : List Char) : List ℚ :=
  (parse_numeric_parts cleaned_data).map ratOfParts

/-- Continuation byte of a UTF-8 sequence. -/
def isCont (b : Nat) : Bool :=
  decide (0x80 ≤ b) && decide (b ≤ 0xBF)

/-- Strict UTF-8 decoding, as performed by Python `bytes.decode('utf-8')`
(`gui.py` line 112): rejects stray continuation bytes, truncated sequences,
overlong encodings, surrogates and codepoints above `U+10FFFF`; on success
returns the decoded characters. -/
def utf8Decode : List Nat → Option (List Char)
  | [] => some []
  | b :: rest =>
    if b ≤ 0x7F then
      (utf8Decode rest).map (fun cs => Char.ofNat b :: cs)
    else if 0xC2 ≤ b ∧ b ≤ 0xDF then
      match rest with
      | b1 :: rest1 =>
        if isCont b1 then
          (utf8Decode rest1).map
            (fun cs => Char.ofNat ((b - 0xC0) * 0x40 + (b1 - 0x80)) :: cs)
        else none
      | [] => none
    else if 0xE0 ≤ b ∧ b ≤ 0xEF then
      match rest with
      | b1 :: b2 :: rest2 =>
        if (if b = 0xE0 then decide (0xA0 ≤ b1) && decide (b1 ≤ 0xBF)
            else if b = 0xED then decide (0x80 ≤ b1) && decide (b1 ≤ 0x9F)
            else isCont b1) && isCont b2 then
          (utf8Decode rest2).map
            (fun cs =>
              Char.ofNat ((b - 0xE0) * 0x1000 + (b1 - 0x80) * 0x40 + (b2 - 0x80)) :: cs)
        else none
      | _ => none
    else if 0xF0 ≤ b ∧ b ≤ 0xF4 then
      match rest with
      | b1 :: b2 :: b3 :: rest3 =>
        if (if b = 0xF0 then decide (0x90 ≤ b1) && decide (b1 ≤ 0xBF)
            else if b = 0xF4 then decide (0x80 ≤ b1) && decide (b1 ≤ 0x8F)
            else isCont b1) && isCont b2 && isCont b3 then
          (utf8Decode rest3).map
            (fun cs =>
              Char.ofNat ((b - 0xF0) * 0x40000 + (b1 - 0x80) * 0x1000 +
                (b2 - 0x80) * 0x40 + (b3 - 0x80)) :: cs)
        else none
      | _ => none
    else none

/-- UTF-8 encoding of one character, as performed by Python `str.encode()`
(`gui.py` line 183). -/
def utf8EncodeChar (c : Char) : List Nat :=
  let n := c.toNat
  if n < 0x80 then [n]
  else if n < 0x800 then [0xC0 + n / 0x40, 0x80 + n % 0x40]
  else if n < 0x10000 then
    [0xE0 + n / 0x1000, 0x80 + (n / 0x40) % 0x40, 0x80 + n % 0x40]
  else
    [0xF0 + n / 0x40000, 0x80 + (n / 0x1000) % 0x40,
     0x80 + (n / 0x40) % 0x40, 0x80 + n % 0x40]

/-- UTF-8 encoding of a string (Python `str.encode()`). -/
def utf8Encode (l : List Char) : List Nat :=
  (l.map utf8EncodeChar).flatten

/-- Worker for `natDigits`, with fuel: the quotient shrinks at every step,
so `n + 1` fuel always suffices for the argument `natDigits` passes. -/
def natDigitsAux : Nat → Nat → List Char
  | 0, _ => []
  | fuel + 1, n =>
    if n < 10 then [Nat.digitChar n]
    else natDigitsAux fuel (n / 10) ++ [Nat.digitChar (n % 10)]

/-- Decimal rendering of a natural number, as Python's f-string `{n}` does
for a nonnegative `int` (`gui.py` line 176; the GUI bounds both interpolated
integers to small positive ranges, `gui.py` lines 404, 415). -/
def natDigits (n : Nat) : List Char :=
  natDigitsAux (n + 1) n

/-- Qt signals emitted by `BluetoothSignals` (`gui.py` lines 26-30), in
emission order.  `device_found` is only emitted by the scan loop, which is
outside the modelled tick/notify/send surface. -/
inductive MonitorEvent where
  | connection_status (connected : Bool) (message : String)
  | data_received (chunk : List Char)
  | chunks_complete (chunks : List (List Char))
deriving DecidableEq

/-- Event classifier for the message-complete signal. -/
def isChunksComplete : MonitorEvent → Bool
  | MonitorEvent.chunks_complete _ => true
  | _ => false

/-- Mutable state of `BluetoothWorker` relevant to reassembly
(`gui.py` lines 40-44), together with the `transmission_start_time` local
of `connection_monitor` (`gui.py` line 127), which persists across loop
iterations of the monitor coroutine and so is carried in the state.
`is_connected` also stands for the transport's own liveness
(`client.is_connected`), which the code checks alongside it. -/
structure WorkerState where
  is_connected : Bool
  received_chunks : List (List Char)
  chunks_in_progress : Bool
  transmission_start_time : ℚ
deriving DecidableEq

/-- The worker state right after a successful connect (`gui.py` lines
40-44, 89, 127): empty buffer, no transmission in progress, start-time
sentinel 0. -/
def initWorker : WorkerState :=
  { is_connected := true
    received_chunks := []
    chunks_in_progress := false
    transmission_start_time := 0 }

/-- Status message of `gui.py` line 132. -/
def msgConnectionLost : String := "Connection lost, reconnecting..."

/-- Status message of `gui.py` line 144. -/
def msgTransmissionStarted : String := "Data transmission started"

/-- Status message of `gui.py` line 154. -/
def msgTransmissionComplete : String := "Data transmission complete"

/-- Status message of `gui.py` line 172. -/
def msgNotConnected : String := "Cannot send command: Not connected"

/-- `BluetoothWorker.notification_handler` (`gui.py` lines 108-122): decode
the payload as UTF-8; on success emit `data_received`, append the chunk to
`received_chunks` and set `chunks_in_progress`; any exception (in
particular a decode failure) is caught and only printed, leaving the state
untouched and emitting nothing. -/
def notification_handler (st : WorkerState) (data : List Nat) :
    WorkerState × List MonitorEvent :=
  match utf8Decode data with
  | none => (st, [])
  | some chunk =>
    ({ st with
        received_chunks := st.received_chunks ++ [chunk]
        chunks_in_progress := true },
     [MonitorEvent.data_received chunk])

/-- The total-transmission ceiling `total_timeout` (`gui.py` line 126). -/
def total_timeout : ℚ := 30

/-- One iteration of the `while True` loop of
`BluetoothWorker.connection_monitor` (`gui.py` lines 129-167) at clock
reading `now`.  When the connection is gone the monitor reports and returns
(the reconnect scan it spawns is outside the modelled surface).  Otherwise
it arms `transmission_start_time` on the first iteration that sees buffered
chunks, then flushes the buffer as one `chunks_complete` emission when some
chunk contains `]` or the armed start time is more than `total_timeout`
ago. -/
def monitor_started (st : WorkerState) : Bool :=
  st.chunks_in_progress && !st.received_chunks.isEmpty &&
    decide (st.transmission_start_time = 0)

/-- The value the monitor's `transmission_start_time` local has after the
line-142 update of the current iteration. -/
def monitor_start1 (st : WorkerState) (now : ℚ) : ℚ :=
  if monitor_started st then now else st.transmission_start_time

/-- The completion condition of `gui.py` lines 147-152 for the current
iteration: chunks are in flight and buffered, and either some chunk
contains `]` or the armed start time is more than `total_timeout` ago. -/
def monitor_complete (st : WorkerState) (now : ℚ) : Bool :=
  st.chunks_in_progress && !st.received_chunks.isEmpty &&
    (st.received_chunks.any (fun chunk => decide (']' ∈ chunk)) ||
      (decide (0 < monitor_start1 st now) &&
        decide (total_timeout < now - monitor_start1 st now)))

/-- The "Data transmission started" emission of `gui.py` line 144, when the
guard of line 142 holds in the current iteration. -/
def monitor_started_events (st : WorkerState) : List MonitorEvent :=
  if monitor_started st then
    [MonitorEvent.connection_status true msgTransmissionStarted]
  else []

def connection_monitor_tick (st : WorkerState) (now : ℚ) :
    WorkerState × List MonitorEvent :=
  if st.is_connected = false then
    (st, [MonitorEvent.connection_status false msgConnectionLost])
  else if monitor_complete st now then
    ({ st with
        received_chunks := []
        chunks_in_progress := false
        transmission_start_time := 0 },
     monitor_started_events st ++
       [MonitorEvent.connection_status true msgTransmissionComplete,
        MonitorEvent.chunks_complete st.received_chunks])
  else
    ({ st with transmission_start_time := monitor_start1 st now },
     monitor_started_events st)

/-- `BluetoothWorker.send_command` (`gui.py` lines 169-189): when not
connected, report and return `false` without touching any state; otherwise
build the semicolon-delimited command text, clear `received_chunks`, set
`chunks_in_progress`, write the UTF-8 encoding of the command to the GATT
characteristic (the returned `Option` payload), report, and return `true`.
The result is (new state, emitted events, written bytes, return value). -/
def send_command (st : WorkerState) (battery_num : Nat)
    (measurement_type : List Char) (measurement_count : Nat) :
    WorkerState × List MonitorEvent × Option (List Nat) × Bool :=
  if st.is_connected = false then
    (st, [MonitorEvent.connection_status false msgNotConnected], none, false)
  else
    let command : List Char :=
      natDigits battery_num ++ ';' :: measurement_type ++ ';' :: natDigits measurement_count
    ({ st with
        received_chunks := []
        chunks_in_progress := true },
     [MonitorEvent.connection_status true ("Sent command: " ++ command.asString)],
     some (utf8Encode command), true)

/-- External stimuli of the worker: a notification payload delivered by the
transport, one monitor-loop iteration at a given clock reading, or a
command sent from the GUI. -/
inductive WireEvent where
  | frag (data : List Nat)
  | tick (now : ℚ)
  | send (battery_num : Nat) (measurement_type : List Char) (measurement_count : Nat)

/-- One stimulus applied to the worker state, with its emissions. -/
def worker_step (st : WorkerState) : WireEvent → WorkerState × List MonitorEvent
  | WireEvent.frag data => notification_handler st data
  | WireEvent.tick now => connection_monitor_tick st now
  | WireEvent.send b m c =>
    let r := send_command st b m c
    (r.1, r.2.1)

/-- A sequence of stimuli applied in order, collecting all emissions. -/
def run_trace : WorkerState → List WireEvent → WorkerState × List MonitorEvent
  | st, [] => (st, [])
  | st, e :: es =>
    let r := worker_step st e
    let r2 := run_trace r.1 es
    (r2.1, r.2 ++ r2.2)

/-- Outcome of `BatteryDataViewer.on_data_complete` (`gui.py` lines
233-307), abstracting the UI effects: `noData` is the "No data received"
label; `bracketData` is the branch for data containing `[` or `]`, which
appends all parsed values (possibly none) to the plot data; `plainData` is
the bracket-free branch when at least one value parses; `noValidValues` is
the "No valid numeric values found" label. -/
inductive CompleteOutcome where
  | noData
  | bracketData (values : List ℚ)
  | plainData (values : List ℚ)
  | noValidValues
deriving DecidableEq

/-- `BatteryDataViewer.on_data_complete` (`gui.py` lines 233-307): empty
chunk list reports "no data"; otherwise the joined text is cleaned and
parsed; if it has visible content and a bracket, all parsed values are
taken (even when there are none); otherwise values are taken only when at
least one token parses, else "no valid numeric values" is reported.  The
`except ValueError` arm of the source is unreachable because
`parse_numeric_values` never raises. -/
def on_data_complete (chunks : List (List Char)) : CompleteOutcome :=
  if chunks = [] then CompleteOutcome.noData
  else
    let full_data := chunks.flatten
    if pyStrip full_data ≠ [] ∧ ('[' ∈ full_data ∨ ']' ∈ full_data) then
      CompleteOutcome.bracketData (parse_numeric_values (clean_data_string full_data))
    else
      let values := parse_numeric_values (clean_data_string full_data)
      if values ≠ [] then CompleteOutcome.plainData values
      else CompleteOutcome.noValidValues


theorem run_trace_append (st : WorkerState) (es1 es2 : List WireEvent) :
    run_trace st (es1 ++ es2) =
      ((run_trace (run_trace st es1).1 es2).1,
       (run_trace st es1).2 ++ (run_trace (run_trace st es1).1 es2).2) := by
  induction es1 generalizing st with
  | nil => simp [run_trace]
  | cons e es ih => simp [run_trace, ih, List.append_assoc]

theorem tick_of_empty_buffer (st : WorkerState) (now : ℚ)
    (hc : st.is_connected = true) (hrc : st.received_chunks = []) :
    connection_monitor_tick st now = (st, []) := by
  obtain ⟨conn, rc, cip, tst⟩ := st
  simp only [WorkerState.is_connected] at hc
  simp only [WorkerState.received_chunks] at hrc
  subst hc hrc
  simp [connection_monitor_tick, monitor_complete, monitor_started,
    monitor_start1, monitor_started_events]

theorem ticks_of_empty_buffer (st : WorkerState) (ts : List ℚ)
    (hc : st.is_connected = true) (hrc : st.received_chunks = []) :
    run_trace st (ts.map WireEvent.tick) = (st, []) := by
  induction ts with
  | nil => simp [run_trace]
  | cons t ts ih =>
    simp [run_trace, worker_step, tick_of_empty_buffer st t hc hrc, ih]

theorem started_events_no_complete (st : WorkerState) (l : List (List Char)) :
    MonitorEvent.chunks_complete l ∉ monitor_started_events st := by
  unfold monitor_started_events
  by_cases hs : monitor_started st = true
  · simp [hs]
  · simp [hs]

theorem chunks_complete_nonempty (st : WorkerState) (now : ℚ) (l : List (List Char))
    (h : MonitorEvent.chunks_complete l ∈ (connection_monitor_tick st now).2) :
    l ≠ [] := by
  unfold connection_monitor_tick at h
  by_cases hc : st.is_connected = false
  · rw [if_pos hc] at h
    simp at h
  · rw [if_neg hc] at h
    by_cases hcomp : monitor_complete st now = true
    · rw [if_pos hcomp] at h
      have hne : st.received_chunks.isEmpty = false := by
        rcases Bool.and_eq_true_iff.mp hcomp with ⟨h1, -⟩
        rcases Bool.and_eq_true_iff.mp h1 with ⟨-, h2⟩
        simpa using h2
      rcases List.mem_append.mp h with h' | h'
      · exact absurd h' (started_events_no_complete st l)
      · simp only [List.mem_cons, List.not_mem_nil, or_false] at h'
        rcases h' with h' | h'
        · exact absurd h' (by simp)
        · have hl : l = st.received_chunks := by
            injection h'
          rw [hl]
          intro hnil
          rw [hnil] at hne
          simp at hne
    · rw [if_neg hcomp] at h
      exact absurd h (started_events_no_complete st l)

/-- C7: while not connected, `send_command` fails immediately: it returns
`false`, emits only the failure status event, writes nothing to the
characteristic (the command is not queued), and leaves the whole worker
state - in particular the reassembly buffer and the
transmission-in-progress flag - unchanged. -/
theorem spec_c7 (st : WorkerState) (battery_num : Nat)
    (measurement_type : List Char) (measurement_count : Nat)
    (h : st.is_connected = false) :
    send_command st battery_num measurement_type measurement_count =
      (st, [MonitorEvent.connection_status false msgNotConnected], none, false) := by
  simp [send_command, h]

theorem spec_c7_witness :
    send_command
        { is_connected := false, received_chunks := [['x']],
          chunks_in_progress := true, transmission_start_time := 2 }
        1 ['V'] 5 =
      ({ is_connected := false, received_chunks := [['x']],
         chunks_in_progress := true, transmission_start_time := 2 },
       [MonitorEvent.connection_status false msgNotConnected], none, false) :=
  spec_c7 _ 1 ['V'] 5 rfl

/-- C9: the completion check of the monitor requires a nonempty fragment
buffer, so a tick on an empty buffer is a no-op emitting nothing, any
number of ticks after a send-triggered reset (which empties the buffer)
emit nothing, and `chunks_complete` is never emitted carrying an empty
fragment list. -/
theorem spec_c9 :
    (∀ st : WorkerState, ∀ now : ℚ, st.is_connected = true →
      st.received_chunks = [] → connection_monitor_tick st now = (st, [])) ∧
    (∀ st : WorkerState, ∀ ts : List ℚ, st.is_connected = true →
      st.received_chunks = [] → run_trace st (ts.map WireEvent.tick) = (st, [])) ∧
    (∀ st : WorkerState, ∀ now : ℚ, ∀ l : List (List Char),
      MonitorEvent.chunks_complete l ∈ (connection_monitor_tick st now).2 → l ≠ []) :=
  ⟨tick_of_empty_buffer, ticks_of_empty_buffer, chunks_complete_nonempty⟩

theorem spec_c9_witness :
    connection_monitor_tick initWorker 5 = (initWorker, []) :=
  spec_c9.1 initWorker 5 rfl rfl

/-- C10: the notification handler is total; when UTF-8 decoding of the
payload fails the exception is caught and the payload dropped: no fragment
is appended, no event is emitted, and the state (including the
transmission-in-progress flag) is unchanged. -/
theorem spec_c10 (st : WorkerState) (data : List Nat)
    (h : utf8Decode data = none) :
    notification_handler st data = (st, []) := by
  simp [notification_handler, h]

theorem spec_c10_witness :
    notification_handler initWorker [255] = (initWorker, []) :=
  spec_c10 initWorker [255] (by decide)

theorem run_frags (ds : List (List Nat)) (ss : List (List Char)) (st : WorkerState)
    (h : ds.map utf8Decode = ss.map some) :
    run_trace st (ds.map WireEvent.frag) =
      ({ st with
          received_chunks := st.received_chunks ++ ss
          chunks_in_progress := st.chunks_in_progress || !ss.isEmpty },
       ss.map MonitorEvent.data_received) := by
  induction ds generalizing ss st with
  | nil =>
    cases ss with
    | nil =>
      obtain ⟨conn, rc, cip, tst⟩ := st
      simp [run_trace]
    | cons s ss2 => simp at h
  | cons d ds ih =>
    cases ss with
    | nil => simp at h
    | cons s ss2 =>
      simp only [List.map_cons, List.cons.injEq] at h
      obtain ⟨h1, h2⟩ := h
      obtain ⟨conn, rc, cip, tst⟩ := st
      simp only [List.map_cons, run_trace, worker_step, notification_handler, h1]
      rw [ih ss2 _ h2]
      simp

theorem tick_flush (st : WorkerState) (now : ℚ)
    (hc : st.is_connected = true) (hcip : st.chunks_in_progress = true)
    (hany : st.received_chunks.any (fun chunk => decide (']' ∈ chunk)) = true) :
    connection_monitor_tick st now =
      ({ st with
          received_chunks := []
          chunks_in_progress := false
          transmission_start_time := 0 },
       monitor_started_events st ++
         [MonitorEvent.connection_status true msgTransmissionComplete,
          MonitorEvent.chunks_complete st.received_chunks]) := by
  have hne : st.received_chunks.isEmpty = false := by
    cases hrc : st.received_chunks with
    | nil => rw [hrc] at hany; simp at hany
    | cons a l => simp
  have hcomp : monitor_complete st now = true := by
    unfold monitor_complete
    rw [hcip, hne, hany]
    simp
  unfold connection_monitor_tick
  rw [if_neg (by simp [hc]), if_pos hcomp]

theorem tick_arm (st : WorkerState) (now : ℚ)
    (hc : st.is_connected = true) (hcip : st.chunks_in_progress = true)
    (hne : st.received_chunks ≠ [])
    (htst : st.transmission_start_time = 0)
    (hbr : st.received_chunks.any (fun chunk => decide (']' ∈ chunk)) = false) :
    connection_monitor_tick st now =
      ({ st with transmission_start_time := now },
       [MonitorEvent.connection_status true msgTransmissionStarted]) := by
  have hie : st.received_chunks.isEmpty = false := by
    cases hrc : st.received_chunks with
    | nil => exact absurd hrc hne
    | cons a l => simp
  have hs : monitor_started st = true := by
    unfold monitor_started
    rw [hcip, hie, htst]
    simp
  have h1 : monitor_start1 st now = now := by
    unfold monitor_start1
    rw [hs]
    simp
  have hcomp : monitor_complete st now = false := by
    unfold monitor_complete
    rw [hbr, h1]
    have hx : decide (total_timeout < now - now) = false := by
      simp only [sub_self, decide_eq_false_iff_not]
      norm_num [total_timeout]
    rw [hx]
    simp
  unfold connection_monitor_tick
  rw [if_neg (by simp [hc]), if_neg (by simp [hcomp]), h1]
  unfold monitor_started_events
  rw [hs]
  simp

theorem tick_armed_quiet (st : WorkerState) (now : ℚ)
    (hc : st.is_connected = true)
    (hbr : st.received_chunks.any (fun chunk => decide (']' ∈ chunk)) = false)
    (htst : ¬ st.transmission_start_time = 0)
    (hto : ¬ total_timeout < now - st.transmission_start_time) :
    connection_monitor_tick st now = (st, []) := by
  have hs : monitor_started st = false := by
    unfold monitor_started
    simp [htst]
  have h1 : monitor_start1 st now = st.transmission_start_time := by
    unfold monitor_start1
    rw [hs]
    simp
  have hcomp : monitor_complete st now = false := by
    unfold monitor_complete
    rw [hbr, h1]
    simp [decide_eq_false hto]
  unfold connection_monitor_tick
  rw [if_neg (by simp [hc]), if_neg (by simp [hcomp]), h1]
  unfold monitor_started_events
  rw [hs]
  obtain ⟨conn, rc, cip, tst⟩ := st
  simp

theorem tick_armed_timeout (st : WorkerState) (now : ℚ)
    (hc : st.is_connected = true) (hcip : st.chunks_in_progress = true)
    (hne : st.received_chunks ≠ [])
    (hpos : 0 < st.transmission_start_time)
    (hgt : total_timeout < now - st.transmission_start_time) :
    connection_monitor_tick st now =
      ({ st with
          received_chunks := []
          chunks_in_progress := false
          transmission_start_time := 0 },
       [MonitorEvent.connection_status true msgTransmissionComplete,
        MonitorEvent.chunks_complete st.received_chunks]) := by
  have hie : st.received_chunks.isEmpty = false := by
    cases hrc : st.received_chunks with
    | nil => exact absurd hrc hne
    | cons a l => simp
  have hs : monitor_started st = false := by
    unfold monitor_started
    simp [hpos.ne']
  have h1 : monitor_start1 st now = st.transmission_start_time := by
    unfold monitor_start1
    rw [hs]
    simp
  have hcomp : monitor_complete st now = true := by
    unfold monitor_complete
    rw [hcip, hie, h1]
    simp [hpos, hgt]
  unfold connection_monitor_tick
  rw [if_neg (by simp [hc]), if_pos hcomp]
  unfold monitor_started_events
  rw [hs]
  simp

theorem data_received_no_complete (ss : List (List Char)) :
    (ss.map MonitorEvent.data_received).countP isChunksComplete = 0 := by
  induction ss with
  | nil => simp
  | cons s ss ih => simp [List.countP_cons, isChunksComplete, ih]

/-- C1: for every sequence of received fragments whose concatenation
contains `]`, the next monitor tick emits exactly one `chunks_complete`,
carrying every fragment received so far in arrival order; the buffer is
emptied by the flush, so fragments received after the flush are not in the
emitted list, and further ticks without new fragments emit nothing at
all. -/
theorem spec_c1 (ds : List (List Nat)) (ss : List (List Char)) (now : ℚ) (ts : List ℚ)
    (hdec : ds.map utf8Decode = ss.map some)
    (hbr : ']' ∈ ss.flatten) :
    (run_trace initWorker (ds.map WireEvent.frag ++ [WireEvent.tick now])).2.countP
        isChunksComplete = 1 ∧
    MonitorEvent.chunks_complete ss ∈
      (run_trace initWorker (ds.map WireEvent.frag ++ [WireEvent.tick now])).2 ∧
    (run_trace initWorker (ds.map WireEvent.frag ++ [WireEvent.tick now])).1.received_chunks
        = [] ∧
    (run_trace (run_trace initWorker (ds.map WireEvent.frag ++ [WireEvent.tick now])).1
        (ts.map WireEvent.tick)).2 = [] := by
  have hss : ss ≠ [] := by
    intro h
    rw [h] at hbr
    simp at hbr
  have hany : ss.any (fun chunk => decide (']' ∈ chunk)) = true := by
    rw [List.any_eq_true]
    rcases List.mem_flatten.mp hbr with ⟨c, hc1, hc2⟩
    exact ⟨c, hc1, by simpa using hc2⟩
  obtain ⟨s, ss2, rfl⟩ : ∃ s ss2, ss = s :: ss2 := by
    cases ss with
    | nil => exact absurd rfl hss
    | cons s ss2 => exact ⟨s, ss2, rfl⟩
  have hfr := run_frags ds (s :: ss2) initWorker hdec
  have hA : ({ initWorker with
      received_chunks := initWorker.received_chunks ++ (s :: ss2)
      chunks_in_progress := initWorker.chunks_in_progress || !(s :: ss2).isEmpty }
        : WorkerState) =
      ⟨true, s :: ss2, true, 0⟩ := by
    simp [initWorker]
  rw [hA] at hfr
  have htick := tick_flush ⟨true, s :: ss2, true, 0⟩ now rfl rfl hany
  have hstev : monitor_started_events (⟨true, s :: ss2, true, 0⟩ : WorkerState) =
      [MonitorEvent.connection_status true msgTransmissionStarted] := by
    unfold monitor_started_events monitor_started
    simp
  rw [hstev] at htick
  have hrun : run_trace initWorker (ds.map WireEvent.frag ++ [WireEvent.tick now]) =
      ((⟨true, [], false, 0⟩ : WorkerState),
       (s :: ss2).map MonitorEvent.data_received ++
         [MonitorEvent.connection_status true msgTransmissionStarted,
          MonitorEvent.connection_status true msgTransmissionComplete,
          MonitorEvent.chunks_complete (s :: ss2)]) := by
    rw [run_trace_append, hfr]
    simp only [run_trace, worker_step, htick]
    simp
  rw [hrun]
  refine ⟨?_, ?_, rfl, ?_⟩
  · simp [List.countP_append, data_received_no_complete, List.countP_cons, isChunksComplete]
  · simp
  · exact (ticks_of_empty_buffer ⟨true, [], false, 0⟩ ts rfl rfl).symm ▸ rfl

theorem spec_c1_witness :
    (run_trace initWorker ([[93]].map WireEvent.frag ++ [WireEvent.tick 1])).2.countP
        isChunksComplete = 1 :=
  (spec_c1 [[93]] [[']']] 1 [] (by decide) (by decide)).1

theorem run_armed_count (s : List Char) (t1 : ℚ) (ts : List ℚ)
    (hbr : ']' ∉ s) (ht1 : 0 < t1) :
    ((∃ t ∈ ts, total_timeout < t - t1) →
      (run_trace ⟨true, [s], true, t1⟩ (ts.map WireEvent.tick)).2.countP
        isChunksComplete = 1) ∧
    ((∀ t ∈ ts, ¬ total_timeout < t - t1) →
      (run_trace ⟨true, [s], true, t1⟩ (ts.map WireEvent.tick)).2.countP
        isChunksComplete = 0) := by
  have hanyf : ([s] : List (List Char)).any (fun chunk => decide (']' ∈ chunk)) = false := by
    simp [hbr]
  induction ts with
  | nil =>
    constructor
    · intro h
      simp at h
    · intro h
      simp [run_trace]
  | cons t ts ih =>
    by_cases hf : total_timeout < t - t1
    · have htick := tick_armed_timeout ⟨true, [s], true, t1⟩ t rfl rfl (by simp) ht1 hf
      have hrest := ticks_of_empty_buffer ⟨true, [], false, 0⟩ ts rfl rfl
      have hrun : run_trace ⟨true, [s], true, t1⟩ ((t :: ts).map WireEvent.tick) =
          ((⟨true, [], false, 0⟩ : WorkerState),
           [MonitorEvent.connection_status true msgTransmissionComplete,
            MonitorEvent.chunks_complete [s]]) := by
        simp only [List.map_cons, run_trace, worker_step, htick, hrest]
        simp
      constructor
      · intro h
        rw [hrun]
        simp [List.countP_cons, isChunksComplete]
      · intro h
        exact absurd hf (h t (by simp))
    · have htick := tick_armed_quiet ⟨true, [s], true, t1⟩ t rfl hanyf ht1.ne' hf
      have hrun : run_trace ⟨true, [s], true, t1⟩ ((t :: ts).map WireEvent.tick) =
          run_trace ⟨true, [s], true, t1⟩ (ts.map WireEvent.tick) := by
        simp only [List.map_cons, run_trace, worker_step, htick]
        simp
      rw [hrun]
      constructor
      · intro h
        rcases h with ⟨t', ht', hgt⟩
        rcases List.mem_cons.mp ht' with rfl | ht'
        · exact absurd hgt hf
        · exact ih.1 ⟨t', ht', hgt⟩
      · intro h
        exact ih.2 (fun t' ht' => h t' (List.mem_cons_of_mem _ ht'))

/-- C2: when no received fragment ever contains `]`, completion of the
in-flight message is forced exactly once - the whole trace emits one
`chunks_complete` when some later tick is more than 30 seconds past the
tick that armed the timer, and none otherwise - and never earlier than 30
seconds after the first fragment: any tick that flushes happens at a clock
reading more than 30 seconds after any instant `tfrag` at or before the
arming tick, in particular after the arrival of the first fragment. -/
theorem spec_c2 (d : List Nat) (s : List Char) (t1 tfrag : ℚ) (ts : List ℚ)
    (hdec : utf8Decode d = some s) (hbr : ']' ∉ s)
    (ht1 : 0 < t1) (hfr : tfrag ≤ t1) :
    ((∃ t ∈ ts, total_timeout < t - t1) →
      (run_trace initWorker
        (WireEvent.frag d :: WireEvent.tick t1 :: ts.map WireEvent.tick)).2.countP
          isChunksComplete = 1) ∧
    ((∀ t ∈ ts, ¬ total_timeout < t - t1) →
      (run_trace initWorker
        (WireEvent.frag d :: WireEvent.tick t1 :: ts.map WireEvent.tick)).2.countP
          isChunksComplete = 0) ∧
    (∀ now : ℚ,
      (connection_monitor_tick
        (run_trace initWorker [WireEvent.frag d, WireEvent.tick t1]).1 now).2.countP
          isChunksComplete ≠ 0 →
      total_timeout < now - tfrag) := by
  have hanyf : ([s] : List (List Char)).any (fun chunk => decide (']' ∈ chunk)) = false := by
    simp [hbr]
  have hfrag : worker_step initWorker (WireEvent.frag d) =
      ((⟨true, [s], true, 0⟩ : WorkerState), [MonitorEvent.data_received s]) := by
    simp [worker_step, notification_handler, hdec, initWorker]
  have harm := tick_arm ⟨true, [s], true, 0⟩ t1 rfl rfl (by simp) rfl hanyf
  have hstep2 : worker_step ⟨true, [s], true, 0⟩ (WireEvent.tick t1) =
      ((⟨true, [s], true, t1⟩ : WorkerState),
       [MonitorEvent.connection_status true msgTransmissionStarted]) := by
    simp only [worker_step]
    rw [harm]
  have hsplit : (run_trace initWorker
      (WireEvent.frag d :: WireEvent.tick t1 :: ts.map WireEvent.tick)) =
      ((run_trace ⟨true, [s], true, t1⟩ (ts.map WireEvent.tick)).1,
       MonitorEvent.data_received s ::
         MonitorEvent.connection_status true msgTransmissionStarted ::
         (run_trace ⟨true, [s], true, t1⟩ (ts.map WireEvent.tick)).2) := by
    simp only [run_trace, hfrag, hstep2]
    simp
  have hpre : (run_trace initWorker [WireEvent.frag d, WireEvent.tick t1]).1 =
      (⟨true, [s], true, t1⟩ : WorkerState) := by
    simp only [run_trace, hfrag, hstep2]
  have hcount := run_armed_count s t1 ts hbr ht1
  refine ⟨?_, ?_, ?_⟩
  · intro h
    rw [hsplit]
    simp only [List.countP_cons]
    rw [hcount.1 h]
    simp [isChunksComplete]
  · intro h
    rw [hsplit]
    simp only [List.countP_cons]
    rw [hcount.2 h]
    simp [isChunksComplete]
  · intro now hne0
    rw [hpre] at hne0
    by_cases hx : total_timeout < now - t1
    · linarith
    · exfalso
      apply hne0
      rw [tick_armed_quiet ⟨true, [s], true, t1⟩ now rfl hanyf ht1.ne' hx]
      simp

theorem spec_c2_witness :
    (run_trace initWorker
      (WireEvent.frag [120] :: WireEvent.tick 1 :: [(32 : ℚ)].map WireEvent.tick)).2.countP
        isChunksComplete = 1 :=
  (spec_c2 [120] ['x'] 1 1 [32] (by decide) (by decide) (by norm_num) (le_refl 1)).1
    ⟨32, by simp, by norm_num [total_timeout]⟩

theorem countP_started_events (st : WorkerState) :
    (monitor_started_events st).countP isChunksComplete = 0 := by
  unfold monitor_started_events
  by_cases h : monitor_started st = true
  · simp [h, isChunksComplete]
  · simp [h]

theorem countP_comp_data_received (ss : List (List Char)) :
    ss.countP (isChunksComplete ∘ MonitorEvent.data_received) = 0 := by
  induction ss with
  | nil => simp
  | cons s ss ih => simp [List.countP_cons, Function.comp, isChunksComplete, ih]

/-- C3 counterexample: `send_command` while connected does not clear the
transmission-in-progress flag; it sets it (`gui.py` line 180 assigns
`True`).  At this concrete connected state with the flag down, the flag is
up, not cleared, after the call. -/
theorem spec_c3_counterexample :
    ¬ ((send_command ⟨true, [['a']], false, 0⟩ 1 ['V'] 100).1.chunks_in_progress
        = false) := by
  decide

/-- C3 (amended): for every call to `send_command` while connected, before
the write is issued the in-flight reassembly buffer is reset to empty and
the transmission-in-progress flag is set (marked in progress - the code
assigns `True`, it does not clear the flag); consequently after send(A),
fragments for A, then send(B) before completion, only B's fragments appear
in the next message-complete event. -/
theorem spec_c3 (st : WorkerState) (bA bB : Nat) (mA mB : List Char) (cA cB : Nat)
    (dsA dsB : List (List Nat)) (ssA ssB : List (List Char)) (now : ℚ)
    (hc : st.is_connected = true)
    (hA : dsA.map utf8Decode = ssA.map some)
    (hB : dsB.map utf8Decode = ssB.map some)
    (hbr : ']' ∈ ssB.flatten) :
    (send_command st bA mA cA).1.received_chunks = [] ∧
    (send_command st bA mA cA).1.chunks_in_progress = true ∧
    (send_command st bA mA cA).2.2.1.isSome = true ∧
    (run_trace st
        ([WireEvent.send bA mA cA] ++ dsA.map WireEvent.frag ++
         [WireEvent.send bB mB cB] ++ dsB.map WireEvent.frag ++
         [WireEvent.tick now])).2.countP isChunksComplete = 1 ∧
    MonitorEvent.chunks_complete ssB ∈
      (run_trace st
        ([WireEvent.send bA mA cA] ++ dsA.map WireEvent.frag ++
         [WireEvent.send bB mB cB] ++ dsB.map WireEvent.frag ++
         [WireEvent.tick now])).2 := by
  have hanyB : ssB.any (fun chunk => decide (']' ∈ chunk)) = true := by
    rw [List.any_eq_true]
    rcases List.mem_flatten.mp hbr with ⟨c, hc1, hc2⟩
    exact ⟨c, hc1, by simpa using hc2⟩
  obtain ⟨conn, rc, cip, tst⟩ := st
  simp only [WorkerState.is_connected] at hc
  subst hc
  have hS1 : run_trace ⟨true, rc, cip, tst⟩ [WireEvent.send bA mA cA] =
      ((⟨true, [], true, tst⟩ : WorkerState),
       [MonitorEvent.connection_status true
         ("Sent command: " ++
           (natDigits bA ++ ';' :: mA ++ ';' :: natDigits cA).asString)]) := by
    simp [run_trace, worker_step, send_command]
  have hS2 : run_trace ⟨true, [], true, tst⟩ (dsA.map WireEvent.frag) =
      ((⟨true, ssA, true, tst⟩ : WorkerState), ssA.map MonitorEvent.data_received) := by
    rw [run_frags dsA ssA _ hA]
    simp
  have hS3 : run_trace ⟨true, ssA, true, tst⟩ [WireEvent.send bB mB cB] =
      ((⟨true, [], true, tst⟩ : WorkerState),
       [MonitorEvent.connection_status true
         ("Sent command: " ++
           (natDigits bB ++ ';' :: mB ++ ';' :: natDigits cB).asString)]) := by
    simp [run_trace, worker_step, send_command]
  have hS4 : run_trace ⟨true, [], true, tst⟩ (dsB.map WireEvent.frag) =
      ((⟨true, ssB, true, tst⟩ : WorkerState), ssB.map MonitorEvent.data_received) := by
    rw [run_frags dsB ssB _ hB]
    simp
  have hS5 : run_trace ⟨true, ssB, true, tst⟩ [WireEvent.tick now] =
      ((⟨true, [], false, 0⟩ : WorkerState),
       monitor_started_events ⟨true, ssB, true, tst⟩ ++
         [MonitorEvent.connection_status true msgTransmissionComplete,
          MonitorEvent.chunks_complete ssB]) := by
    simp only [run_trace, worker_step]
    rw [tick_flush ⟨true, ssB, true, tst⟩ now rfl rfl hanyB]
    simp
  have hshape : [WireEvent.send bA mA cA] ++ dsA.map WireEvent.frag ++
      [WireEvent.send bB mB cB] ++ dsB.map WireEvent.frag ++ [WireEvent.tick now] =
      [WireEvent.send bA mA cA] ++ (dsA.map WireEvent.frag ++
        ([WireEvent.send bB mB cB] ++ (dsB.map WireEvent.frag ++ [WireEvent.tick now]))) := by
    simp [List.append_assoc]
  have hall : (run_trace ⟨true, rc, cip, tst⟩
      ([WireEvent.send bA mA cA] ++ dsA.map WireEvent.frag ++
       [WireEvent.send bB mB cB] ++ dsB.map WireEvent.frag ++ [WireEvent.tick now])) =
      ((⟨true, [], false, 0⟩ : WorkerState),
       [MonitorEvent.connection_status true
         ("Sent command: " ++
           (natDigits bA ++ ';' :: mA ++ ';' :: natDigits cA).asString)] ++
       (ssA.map MonitorEvent.data_received ++
        ([MonitorEvent.connection_status true
           ("Sent command: " ++
             (natDigits bB ++ ';' :: mB ++ ';' :: natDigits cB).asString)] ++
         (ssB.map MonitorEvent.data_received ++
          (monitor_started_events ⟨true, ssB, true, tst⟩ ++
           [MonitorEvent.connection_status true msgTransmissionComplete,
            MonitorEvent.chunks_complete ssB]))))) := by
    rw [hshape, run_trace_append, hS1]
    rw [run_trace_append, hS2]
    rw [run_trace_append, hS3]
    rw [run_trace_append, hS4, hS5]
  refine ⟨by simp [send_command], by simp [send_command], by simp [send_command], ?_, ?_⟩
  · rw [hall]
    simp [List.countP_append, List.countP_cons, data_received_no_complete,
      countP_started_events, countP_comp_data_received, isChunksComplete]
  · rw [hall]
    simp

theorem spec_c3_witness :
    (run_trace initWorker
        ([WireEvent.send 1 ['V'] 100] ++ [[49]].map WireEvent.frag ++
         [WireEvent.send 2 ['P'] 50] ++ [[93]].map WireEvent.frag ++
         [WireEvent.tick 1])).2.countP isChunksComplete = 1 :=
  (spec_c3 initWorker 1 2 ['V'] ['P'] 100 50 [[49]] [[93]] [['1']] [[']']] 1
    rfl (by decide) (by decide) (by decide)).2.2.2.1

theorem digitChar_range (k : Nat) (hk : k < 10) :
    48 ≤ (Nat.digitChar k).toNat ∧ (Nat.digitChar k).toNat ≤ 57 := by
  interval_cases k <;> decide

theorem natDigitsAux_digit (fuel n : Nat) :
    ∀ c ∈ natDigitsAux fuel n, 48 ≤ c.toNat ∧ c.toNat ≤ 57 := by
  induction fuel generalizing n with
  | zero => intro c hc; simp [natDigitsAux] at hc
  | succ fuel ih =>
    intro c hc
    unfold natDigitsAux at hc
    by_cases hn : n < 10
    · rw [if_pos hn] at hc
      simp only [List.mem_singleton] at hc
      subst hc
      exact digitChar_range n hn
    · rw [if_neg hn] at hc
      rcases List.mem_append.mp hc with h1 | h2
      · exact ih (n / 10) c h1
      · simp only [List.mem_singleton] at h2
        subst h2
        exact digitChar_range (n % 10) (Nat.mod_lt _ (by omega))

theorem natDigits_digit (n : Nat) :
    ∀ c ∈ natDigits n, 48 ≤ c.toNat ∧ c.toNat ≤ 57 :=
  natDigitsAux_digit (n + 1) n

theorem natDigits_ne_nil (n : Nat) : natDigits n ≠ [] := by
  unfold natDigits natDigitsAux
  by_cases hn : n < 10
  · rw [if_pos hn]
    simp
  · rw [if_neg hn]
    simp

theorem utf8Encode_ascii (l : List Char) (h : ∀ c ∈ l, c.toNat < 128) :
    utf8Encode l = l.map Char.toNat := by
  induction l with
  | nil => simp [utf8Encode]
  | cons c l ih =>
    have hc : c.toNat < 0x80 := h c (by simp)
    have hl : ∀ x ∈ l, x.toNat < 128 := fun x hx => h x (by simp [hx])
    have hstep : utf8Encode (c :: l) = utf8EncodeChar c ++ utf8Encode l := by
      simp [utf8Encode]
    rw [hstep, ih hl]
    unfold utf8EncodeChar
    rw [if_pos hc]
    simp

/-- C4: while connected, `send_command` writes exactly the ASCII encoding
of the semicolon-delimited frame built from the battery number, the
measurement-type text and the sample count, with no leading `#` marker; all
written bytes are ASCII, and the written byte sequence is determined by the
three inputs alone (the same for any two connected states). -/
theorem spec_c4 (st st' : WorkerState) (battery_num measurement_count : Nat)
    (measurement_type : List Char)
    (hc : st.is_connected = true) (hc' : st'.is_connected = true)
    (hm : ∀ ch ∈ measurement_type, ch.toNat < 128) :
    (send_command st battery_num measurement_type measurement_count).2.2.1 =
      some ((natDigits battery_num ++ ';' :: measurement_type ++
        ';' :: natDigits measurement_count).map Char.toNat) ∧
    (∀ y ∈ (natDigits battery_num ++ ';' :: measurement_type ++
        ';' :: natDigits measurement_count).map Char.toNat, y < 128) ∧
    ((natDigits battery_num ++ ';' :: measurement_type ++
        ';' :: natDigits measurement_count).map Char.toNat).head? ≠
      some ('#'.toNat) ∧
    (send_command st battery_num measurement_type measurement_count).2.2.1 =
      (send_command st' battery_num measurement_type measurement_count).2.2.1 := by
  have hall : ∀ ch ∈ natDigits battery_num ++ ';' :: measurement_type ++
      ';' :: natDigits measurement_count, ch.toNat < 128 := by
    intro ch hch
    rcases List.mem_append.mp hch with h12 | h3
    · rcases List.mem_append.mp h12 with h1 | h2
      · have := natDigits_digit battery_num ch h1
        omega
      · rcases List.mem_cons.mp h2 with rfl | h4
        · decide
        · exact hm ch h4
    · rcases List.mem_cons.mp h3 with rfl | h5
      · decide
      · have := natDigits_digit measurement_count ch h5
        omega
  have henc := utf8Encode_ascii _ hall
  have hkey : (send_command st battery_num measurement_type measurement_count).2.2.1 =
      some (utf8Encode (natDigits battery_num ++ ';' :: measurement_type ++
        ';' :: natDigits measurement_count)) := by
    unfold send_command
    rw [if_neg (by simp [hc])]
  have hkey' : (send_command st' battery_num measurement_type measurement_count).2.2.1 =
      some (utf8Encode (natDigits battery_num ++ ';' :: measurement_type ++
        ';' :: natDigits measurement_count)) := by
    unfold send_command
    rw [if_neg (by simp [hc'])]
  refine ⟨?_, ?_, ?_, ?_⟩
  · rw [hkey, henc]
  · intro y hy
    rcases List.mem_map.mp hy with ⟨ch, hch, rfl⟩
    exact hall ch hch
  · obtain ⟨d, ds, hd⟩ : ∃ d ds, natDigits battery_num = d :: ds := by
      cases hx : natDigits battery_num with
      | nil => exact absurd hx (natDigits_ne_nil battery_num)
      | cons d ds => exact ⟨d, ds, rfl⟩
    rw [hd]
    simp only [List.cons_append, List.map_cons, List.head?_cons]
    intro hcontra
    have hdn : d.toNat = '#'.toNat := by
      injection hcontra
    have hdig := natDigits_digit battery_num d (by rw [hd]; simp)
    have h35 : '#'.toNat = 35 := by decide
    omega
  · rw [hkey, hkey']

theorem spec_c4_witness :
    (send_command initWorker 1 ['V'] 100).2.2.1 =
      some ((natDigits 1 ++ ';' :: ['V'] ++ ';' :: natDigits 100).map Char.toNat) :=
  (spec_c4 initWorker initWorker 1 100 ['V'] rfl rfl (by decide)).1

/-- C5: the decode pipeline round-trips the well-formed bracketed list
"[1.0, 2.5, 3.0]": cleaning strips the single leading `[` and trailing
`]`, collapses whitespace and separators to single commas and trims outer
separators, giving "1.0,2.5,3.0", and parsing recovers exactly the values
1.0, 2.5 and 3.0. -/
theorem spec_c5 :
    clean_data_string ("[1.0, 2.5, 3.0]".toList) = "1.0,2.5,3.0".toList ∧
    parse_numeric_values (clean_data_string ("[1.0, 2.5, 3.0]".toList)) =
      [1, 5/2, 3] := by
  constructor
  · decide
  · have h : parse_numeric_parts (clean_data_string ("[1.0, 2.5, 3.0]".toList)) =
        [(10, 10), (25, 10), (30, 10)] := by decide
    rw [parse_numeric_values, h]
    simp [ratOfParts]
    norm_num

theorem splitOnComma_cons (c : Char) (rest : List Char) :
    splitOnComma (c :: rest) =
      if c = ',' then [] :: splitOnComma rest
      else
        match splitOnComma rest with
        | [] => [[c]]
        | p :: ps => (c :: p) :: ps := rfl

theorem splitOnComma_ne_nil (l : List Char) : splitOnComma l ≠ [] := by
  induction l with
  | nil => simp [splitOnComma]
  | cons c rest ih =>
    rw [splitOnComma_cons]
    by_cases hc : c = ','
    · simp [hc]
    · rw [if_neg hc]
      cases h : splitOnComma rest with
      | nil => simp
      | cons p ps => simp

theorem splitOnComma_append (l1 l2 : List Char) :
    splitOnComma (l1 ++ ',' :: l2) = splitOnComma l1 ++ splitOnComma l2 := by
  induction l1 with
  | nil => simp [splitOnComma]
  | cons c l1 ih =>
    obtain ⟨p, ps, hp⟩ : ∃ p ps, splitOnComma l1 = p :: ps := by
      cases h : splitOnComma l1 with
      | nil => exact absurd h (splitOnComma_ne_nil l1)
      | cons p ps => exact ⟨p, ps, rfl⟩
    by_cases hc : c = ','
    · simp only [List.cons_append, splitOnComma_cons, if_pos hc, ih]
    · simp only [List.cons_append, splitOnComma_cons, if_neg hc, ih, hp]

theorem splitOnComma_no_comma (l : List Char) (h : ',' ∉ l) :
    splitOnComma l = [l] := by
  induction l with
  | nil => rfl
  | cons c rest ih =>
    have hc : ¬ c = ',' := fun hh => h (by simp [hh])
    have hrest : ',' ∉ rest := fun hh => h (by simp [hh])
    rw [splitOnComma_cons, if_neg hc, ih hrest]

theorem parse_numeric_parts_eq (l : List Char) :
    parse_numeric_parts l = (splitOnComma l).filterMap parse_token_parts := by
  by_cases h : l = []
  · subst h
    decide
  · rw [parse_numeric_parts, if_neg h]

theorem parse_token_parts_none (bad : List Char)
    (h : pyFloatParts (pyStrip bad) = none) : parse_token_parts bad = none := by
  unfold parse_token_parts
  by_cases hb : pyStrip bad = []
  · rw [if_pos hb]
  · rw [if_neg hb]
    exact h

/-- C6: a token that fails to read as a float is skipped without discarding
its valid neighbors - dropping the surrounding comma-delimited token
changes nothing else in the parsed value list, for every input - and, not
an error and not the empty list, the fragments "[1.0, oops, 2.0]" parse to
exactly the values 1.0 and 2.0. -/
theorem spec_c6 :
    (∀ xs bad ys : List Char, ',' ∉ bad → pyFloat (pyStrip bad) = none →
      parse_numeric_values (xs ++ ',' :: bad ++ ',' :: ys) =
        parse_numeric_values xs ++ parse_numeric_values ys) ∧
    parse_numeric_values (clean_data_string ("[1.0, oops, 2.0]".toList)) = [1, 2] ∧
    parse_numeric_values (clean_data_string ("[1.0, oops, 2.0]".toList)) ≠ [] := by
  have hconc : parse_numeric_parts (clean_data_string ("[1.0, oops, 2.0]".toList)) =
      [(10, 10), (20, 10)] := by decide
  refine ⟨?_, ?_, ?_⟩
  · intro xs bad ys hnc hbad
    have hbad' : pyFloatParts (pyStrip bad) = none := by
      unfold pyFloat at hbad
      exact Option.map_eq_none'.mp hbad
    have hnone := parse_token_parts_none bad hbad'
    have hsh : xs ++ ',' :: bad ++ ',' :: ys = xs ++ ',' :: (bad ++ ',' :: ys) := by
      simp [List.append_assoc]
    unfold parse_numeric_values
    rw [hsh, parse_numeric_parts_eq, parse_numeric_parts_eq, parse_numeric_parts_eq,
      splitOnComma_append, splitOnComma_append, splitOnComma_no_comma bad hnc]
    simp [List.filterMap_append, List.filterMap_cons, hnone]
  · rw [parse_numeric_values, hconc]
    simp [ratOfParts]
    norm_num
  · rw [parse_numeric_values, hconc]
    simp

theorem spec_c6_witness :
    parse_numeric_values ("1.0".toList ++ ',' :: "oops".toList ++ ',' :: "2.0".toList) =
      parse_numeric_values ("1.0".toList) ++ parse_numeric_values ("2.0".toList) :=
  spec_c6.1 ("1.0".toList) ("oops".toList) ("2.0".toList) (by decide) (by decide)

/-- C8 counterexample: the completed message "[oops]" has zero parseable
numeric tokens after cleanup, yet its outcome is the bracket-branch empty
success, not the distinct "format error" (no-valid-values) outcome the
claim requires for every completed message including bracketed ones. -/
theorem spec_c8_counterexample :
    parse_numeric_values (clean_data_string ("[oops]".toList)) = [] ∧
    on_data_complete [("[oops]".toList)] = CompleteOutcome.bracketData [] ∧
    CompleteOutcome.bracketData [] ≠ CompleteOutcome.noValidValues ∧
    CompleteOutcome.bracketData [] ≠ CompleteOutcome.noData := by
  refine ⟨by decide, by decide, by decide, by decide⟩

/-- C8 (amended): on completion an empty fragment list yields the distinct
"no data" outcome, and a nonempty message whose concatenation is blank or
bracket-free and whose cleaned text yields zero parseable tokens yields
the distinct "format error" (no-valid-values) outcome; but a completed
message whose concatenation has visible content and contains `[` or `]`
and yields zero parseable tokens is processed as an empty success (empty
value list), not as a format error. -/
theorem spec_c8 (chunks : List (List Char)) :
    (chunks = [] → on_data_complete chunks = CompleteOutcome.noData) ∧
    (chunks ≠ [] →
      ¬ (pyStrip chunks.flatten ≠ [] ∧
          ('[' ∈ chunks.flatten ∨ ']' ∈ chunks.flatten)) →
      parse_numeric_values (clean_data_string chunks.flatten) = [] →
      on_data_complete chunks = CompleteOutcome.noValidValues) ∧
    (chunks ≠ [] → pyStrip chunks.flatten ≠ [] →
      ('[' ∈ chunks.flatten ∨ ']' ∈ chunks.flatten) →
      parse_numeric_values (clean_data_string chunks.flatten) = [] →
      on_data_complete chunks = CompleteOutcome.bracketData []) ∧
    CompleteOutcome.noData ≠ CompleteOutcome.noValidValues := by
  refine ⟨?_, ?_, ?_, by decide⟩
  · intro h
    simp only [on_data_complete]
    rw [if_pos h]
  · intro h1 h2 h3
    simp only [on_data_complete]
    rw [if_neg h1, if_neg h2, h3]
    simp
  · intro h1 h2 h3 h4
    simp only [on_data_complete]
    rw [if_neg h1, if_pos (And.intro h2 h3), h4]

theorem spec_c8_witness :
    on_data_complete ([] : List (List Char)) = CompleteOutcome.noData :=
  (spec_c8 []).1 rfl
